import Mathlib

/-!
Verification of the customer compliance-state core of lamassu-server
(`lib/customers.js`): payload normalisation, override attribution
(`addOverrideUser`), compliance-override audit records
(`addComplianceOverrides`), daily-volume aggregation (`getDailyVolume`),
derived status (`format`), lookups (`get`, `getById`, `update`) and the
bounded listing (`batch`).

Modelling conventions, fixed once for the whole file:

* A JavaScript object / SQL row is an association list `Obj` of string
  keys to values; lookups take the first matching key (a JS object has
  unique keys, so first-match agrees with object semantics).
* Timestamps (`timestamptz` columns surfaced as JS `Date`s) are modelled
  as integers; monetary amounts as exact rationals — the source sums
  fiat amounts with BigNumber (`lib/bn.js`), never floats.
* Database access is modelled by its pg-promise semantics: `db.one`
  resolves exactly one row and rejects otherwise (`Err.noData` on zero
  rows, `Err.multipleRows` on several); `db.oneOrNone` additionally
  resolves `null` on zero rows.  `Pgp.helpers.update` with no columns
  throws (`Err.emptyColumns`).  A thrown `TypeError` (reading `.label`
  of `undefined` in `format`) is `Err.typeError`.
* The fire-and-forget audit write of `update` is modelled by passing the
  write as a function `auditWrite`; its outcome is recorded in the
  result but, as in the source, never consulted by the primary path.
-/

namespace Customers

/-- A JavaScript value as it appears in customer rows and update payloads. -/
inductive Val where
  | null : Val
  | str : String → Val
  | num : Int → Val
  | rat : Rat → Val
  | bool : Bool → Val
deriving DecidableEq

/-- A JavaScript object / SQL row: an association list, first key wins. -/
abbrev Obj := List (String × Val)

/-- JavaScript truthiness of a value (`undefined`/absence is handled at
the lookup level and is falsy). -/
def truthy : Val → Bool
  | .null => false
  | .str s => !s.isEmpty
  | .num n => n != 0
  | .rat q => q != 0
  | .bool b => b

/-- First-match key lookup, i.e. JS property access `o[k]`; `none` models
`undefined`. -/
def lookupKey : Obj → String → Option Val
  | [], _ => none
  | kv :: rest, key => if kv.1 = key then some kv.2 else lookupKey rest key

/-- JS property assignment `o[k] = v`: replace the first binding of `k`
in place, or append a fresh binding. -/
def setKey : Obj → String → Val → Obj
  | [], key, v => [(key, v)]
  | kv :: rest, key, v =>
      if kv.1 = key then (key, v) :: rest else kv :: setKey rest key v

/-- Truthiness of the property `k` of `o` (absent properties are falsy). -/
def truthyAt (o : Obj) (k : String) : Bool :=
  match lookupKey o k with
  | some v => truthy v
  | none => false

/-- `_.omit` of a single key. -/
def eraseKey (o : Obj) (k : String) : Obj :=
  o.filter (fun kv => kv.1 ≠ k)

/-- `_.mapKeys`. -/
def mapKeys (f : String → String) (o : Obj) : Obj :=
  o.map (fun kv => (f kv.1, kv.2))

theorem lookup_setKey_self (o : Obj) (k : String) (v : Val) :
    lookupKey (setKey o k v) k = some v := by
  induction o with
  | nil => simp [setKey, lookupKey]
  | cons kv rest ih =>
      by_cases h : kv.1 = k
      · simp [setKey, h, lookupKey]
      · simp [setKey, h, lookupKey, ih]

theorem lookup_setKey_ne (o : Obj) (k k2 : String) (v : Val) (h : k ≠ k2) :
    lookupKey (setKey o k2 v) k = lookupKey o k := by
  have h2 : ¬ k2 = k := fun hh => h hh.symm
  induction o with
  | nil => simp [setKey, lookupKey, h2]
  | cons kv rest ih =>
      by_cases hk : kv.1 = k2
      · simp [setKey, hk, lookupKey, h2]
      · by_cases hk2 : kv.1 = k
        · simp [setKey, hk, lookupKey, hk2, h]
        · simp [setKey, hk, lookupKey, hk2, h, ih]

theorem mem_setKey (o : Obj) (k : String) (v : Val) :
    ∀ kv ∈ setKey o k v, kv ∈ o ∨ kv.1 = k := by
  induction o with
  | nil =>
      intro kv hkv
      simp [setKey] at hkv
      simp [hkv]
  | cons hd rest ih =>
      intro kv hkv
      by_cases h : hd.1 = k
      · simp [setKey, h] at hkv
        rcases hkv with hkv | hkv
        · right; simp [hkv]
        · left; simp [hkv]
      · simp [setKey, h] at hkv
        rcases hkv with hkv | hkv
        · left; simp [hkv]
        · rcases ih kv hkv with h2 | h2
          · left; simp [h2]
          · right; exact h2

/-- Word-capitalisation used by the `camelize` key transform. -/
def capWord (s : String) : String :=
  match s.data with
  | [] => ""
  | c :: cs => String.mk (c.toUpper :: cs)

/-- Split a character list at underscores (the semantics of
`String.splitOn "_"`, restated structurally). -/
def splitUnderscore : List Char → List (List Char)
  | [] => [[]]
  | c :: cs =>
      match splitUnderscore cs with
      | [] => if c = '_' then [[], []] else [[c]]
      | w :: ws => if c = '_' then [] :: w :: ws else (c :: w) :: ws

/-- The `camelize` package's key transform: join the `_`-separated parts,
capitalising every part after the first (`phone_at ↦ phoneAt`). -/
def camelizeKey (s : String) : String :=
  match (splitUnderscore s.data).map String.mk with
  | [] => s
  | p :: ps => p ++ String.join (ps.map capWord)

/-- `camelize` applied to a flat object: transform every key. -/
def camelizeObj (o : Obj) : Obj :=
  o.map (fun kv => (camelizeKey kv.1, kv.2))

/-- `_.snakeCase` restricted to the identifier shapes that occur here:
every uppercase letter becomes `_` followed by its lowercase
(`idCardAt ↦ id_card_at`; keys already in snake case are unchanged). -/
def snakeCaseKey (s : String) : String :=
  s.data.foldl
    (fun acc c =>
      if c.isUpper then acc ++ "_" ++ String.singleton c.toLower
      else acc ++ String.singleton c) ""

/-- `update`, step 1: `_.omit(['id'], _.mapKeys(_.snakeCase, data))`. -/
def normalizePayload (data : Obj) : Obj :=
  eraseKey (mapKeys snakeCaseKey data) "id"

/-- The override columns recognised by `addOverrideUser`
(`lib/customers.js:81`). -/
def overrideFieldNames : List String :=
  ["sms_override", "id_card_data_override", "id_card_photo_override",
   "front_facing_cam_override", "sanctions_check_override",
   "authorized_override"]

/-- `addOverrideUser(customer, userToken)`: with an acting user, set a
companion `<field>_by` property for every truthy override field; with no
acting user return the payload unchanged (`lib/customers.js:78`). -/
def addOverrideUser (customer : Obj) (userToken : Option String) : Obj :=
  match userToken with
  | none => customer
  | some tok =>
      overrideFieldNames.foldl
        (fun c field =>
          if truthyAt c field then setKey c (field ++ "_by") (Val.str tok)
          else c)
        customer

/-- A compliance-override audit record, as passed to
`compliance_overrides.add` (`lib/customers.js:109`). -/
structure ComplianceOverride where
  customerId : String
  complianceType : String
  overrideBy : Option String
  verification : Val
deriving DecidableEq

/-- The override-column to compliance-type mapping of
`addComplianceOverrides` (`lib/customers.js:111`). -/
def overrideFieldMappings : List (String × String) :=
  [("sms_override", "sms"),
   ("id_card_data_override", "id_card_data"),
   ("id_card_photo_override", "id_card_photo"),
   ("front_facing_cam_override", "front_camera"),
   ("sanctions_check_override", "sanctions"),
   ("authorized_override", "authorized")]

/-- One entry of the `_.map` over the field mappings: a record when the
field is present and truthy on the payload, otherwise `null`
(`lib/customers.js:133`). -/
def overrideRecord (id : String) (customer : Obj) (userToken : Option String)
    (m : String × String) : Option ComplianceOverride :=
  match lookupKey customer m.1 with
  | some v => if truthy v then some ⟨id, m.2, userToken, v⟩ else none
  | none => none

/-- `addComplianceOverrides(id, customer, userToken)`: the compacted list
of audit records handed to the override tracker store
(`lib/customers.js:109`). -/
def addComplianceOverrides (id : String) (customer : Obj)
    (userToken : Option String) : List ComplianceOverride :=
  overrideFieldMappings.filterMap (overrideRecord id customer userToken)

/-- The integer timestamp stored at column `k` of a row; `none` models
SQL `NULL` and absent columns, both skipped by `_.maxBy`. -/
def tsAt (row : Obj) (k : String) : Option Int :=
  match lookupKey row k with
  | some (Val.num t) => some t
  | _ => none

/-- The labelled milestone list built by `format`, in source order
(`lib/customers.js:160`). -/
def milestones (row : Obj) : List (String × Option Int) :=
  [("Phone", tsAt row "phone_at"),
   ("ID card", tsAt row "id_card_at"),
   ("Front facing camera", tsAt row "front_facing_cam_at"),
   ("ID card image", tsAt row "id_card_image_at")]

/-- One step of lodash `maxBy` (`baseExtremum` with `baseGt`): skip null
values, replace the best only on a strictly greater value. -/
def maxByStep (acc : Option (String × Int)) (item : String × Option Int) :
    Option (String × Int) :=
  match item.2 with
  | none => acc
  | some v =>
      match acc with
      | none => some (item.1, v)
      | some best => if best.2 < v then some (item.1, v) else acc

/-- `_.maxBy('value', items)`: the first item attaining the maximum
non-null value, or `none` (JS `undefined`) if every value is null. -/
def maxByValue (items : List (String × Option Int)) : Option (String × Int) :=
  items.foldl maxByStep none

/-- `format(customer)`: set `status` to the label of the `maxBy` winner
and camelize; `none` models the `TypeError` thrown when every milestone
is null and `status.label` reads a property of `undefined`
(`lib/customers.js:155`). -/
def format (row : Obj) : Option Obj :=
  match maxByValue (milestones row) with
  | some lv => some (camelizeObj (setKey row "status" (Val.str lv.1)))
  | none => none

/-- A cash-in or cash-out transaction row, with its creation timestamp
and exact fiat amount. -/
structure Tx where
  customerId : Val
  created : Int
  fiat : Rat
deriving DecidableEq

/-- Seconds in the SQL interval `'1 day'`. -/
def oneDay : Int := 86400

/-- `select coalesce(sum(fiat), 0) from ..._txs where customer_id=$1 and
created > now() - interval '1 day'`: exact sum of the qualifying fiat
amounts, `0` when there are none. -/
def sumFiatSince (txs : List Tx) (cid : Val) (since : Int) : Rat :=
  ((txs.filter (fun t => t.customerId = cid ∧ since < t.created)).map
    Tx.fiat).foldl (fun a b => a + b) 0

/-- `getDailyVolume(id)`: the cash-in total plus the cash-out total over
the trailing day, combined with `BN(..).add(..)`.  Modelled from the
spec for the parts outside `src/`: `lib/bn.js` is arbitrary-precision
decimal arithmetic, embedded as `Rat`; the two SQL sums follow the query
text in `lib/customers.js:55`. -/
def getDailyVolume (cashIn cashOut : List Tx) (now : Int) (cid : Val) : Rat :=
  sumFiatSince cashIn cid (now - oneDay) + sumFiatSince cashOut cid (now - oneDay)

/-- The ways a modelled database call can reject: pg-promise `db.one`
with zero rows (`noData`) or several (`multipleRows`),
`Pgp.helpers.update` with no columns (`emptyColumns`), and the
`TypeError` thrown by `format` (`typeError`). -/
inductive Err where
  | noData : Err
  | multipleRows : Err
  | emptyColumns : Err
  | typeError : Err
deriving DecidableEq

/-- Does row `r` satisfy `id=$1`? -/
def idMatches (r : Obj) (id : String) : Prop :=
  lookupKey r "id" = some (Val.str id)

instance (r : Obj) (id : String) : Decidable (idMatches r id) := by
  unfold idMatches
  infer_instance

/-- Does row `r` satisfy `phone=$1`? -/
def phoneMatches (r : Obj) (phone : String) : Prop :=
  lookupKey r "phone" = some (Val.str phone)

instance (r : Obj) (phone : String) : Decidable (phoneMatches r phone) := by
  unfold phoneMatches
  infer_instance

/-- `select id, phone from customers ...`: the projected row. -/
def selectIdPhone (r : Obj) : Obj :=
  [("id", (lookupKey r "id").getD Val.null),
   ("phone", (lookupKey r "phone").getD Val.null)]

/-- `get(phone)` (`lib/customers.js:16`): `db.oneOrNone` by phone; on a
miss resolve absent; on a hit attach `dailyVolume` to the projected row.
`status` is never attached here. -/
def get (store : List Obj) (cashIn cashOut : List Tx) (now : Int)
    (phone : String) : Except Err (Option Obj) :=
  match store.filter (fun r => decide (phoneMatches r phone)) with
  | [] => Except.ok none
  | [r] =>
      let customer := selectIdPhone r
      let dv := getDailyVolume cashIn cashOut now ((lookupKey customer "id").getD Val.null)
      Except.ok (some (setKey customer "dailyVolume" (Val.rat dv)))
  | _ => Except.error Err.multipleRows

/-- `getById(id)` (`lib/customers.js:49`): `db.oneOrNone` by id, then
`customer ? format(customer) : null`. -/
def getById (store : List Obj) (id : String) : Except Err (Option Obj) :=
  match store.filter (fun r => decide (idMatches r id)) with
  | [] => Except.ok none
  | [r] =>
      match format r with
      | some c => Except.ok (some c)
      | none => Except.error Err.typeError
  | _ => Except.error Err.multipleRows

/-- `applyUpdate row upd`: the row after `update customers set <keys of
upd> where ...` touched it — columns named in the payload are replaced,
every other column keeps its prior value. -/
def applyUpdate (row : Obj) (upd : Obj) : Obj :=
  upd.foldl (fun r kv => setKey r kv.1 kv.2) row

/-- The `update ... where id=$1 returning *` statement followed by
`db.one` and `.then(customer => customer ? format(customer) : null)`:
returns the updated store and the promise outcome.  `db.one` never
resolves with a falsy value, so the `: null` branch of the source is
unreachable and the ok-payload is always `some`. -/
def runUpdateSql (store : List Obj) (id : String) (upd : Obj) :
    List Obj × Except Err (Option Obj) :=
  if upd.isEmpty then (store, Except.error Err.emptyColumns)
  else
    let newStore :=
      store.map (fun r => if idMatches r id then applyUpdate r upd else r)
    match (store.filter (fun r => decide (idMatches r id))).map
        (fun r => applyUpdate r upd) with
    | [] => (newStore, Except.error Err.noData)
    | [r] =>
        (newStore,
         match format r with
         | some c => Except.ok (some c)
         | none => Except.error Err.typeError)
    | _ => (newStore, Except.error Err.multipleRows)

/-- Everything observable about one `update(id, data, userToken)` call:
the store after the row update, the promise outcome, the audit records
handed to the override tracker, and the (ignored) outcome of that
fire-and-forget write. -/
instance {ε α : Type} [DecidableEq ε] [DecidableEq α] :
    DecidableEq (Except ε α) := fun x y =>
  match x, y with
  | Except.ok a, Except.ok b =>
      if h : a = b then isTrue (by rw [h]) else isFalse (by simp [h])
  | Except.error a, Except.error b =>
      if h : a = b then isTrue (by rw [h]) else isFalse (by simp [h])
  | Except.ok _, Except.error _ => isFalse (by simp)
  | Except.error _, Except.ok _ => isFalse (by simp)

structure UpdateOutcome where
  newStore : List Obj
  result : Except Err (Option Obj)
  auditAttempt : List ComplianceOverride
  auditResult : Except Err Unit
deriving DecidableEq

/-- `update(id, data, userToken)` (`lib/customers.js:39`): normalise the
payload, add `_by` attribution, fire the audit write without awaiting
it, then run the row update.  `auditWrite` is the override tracker
store; its outcome is recorded but never consulted. -/
def update (store : List Obj) (id : String) (data : Obj)
    (userToken : Option String)
    (auditWrite : List ComplianceOverride → Except Err Unit) : UpdateOutcome :=
  let formattedData := normalizePayload data
  let updateData := addOverrideUser formattedData userToken
  let auditRecords := addComplianceOverrides id updateData userToken
  let auditResult := auditWrite auditRecords
  let prim := runUpdateSql store id updateData
  ⟨prim.1, prim.2, auditRecords, auditResult⟩

/-- The fixed page size `NUM_RESULTS` (`lib/customers.js:6`). -/
def NUM_RESULTS : Nat := 20

/-- The `created` column as a sort key for `order by created desc`:
`⊤` for SQL `NULL`, which sorts first under `desc`. -/
def createdKey (r : Obj) : WithTop Int :=
  match tsAt r "created" with
  | some t => (t : WithTop Int)
  | none => ⊤

/-- `order by created desc`: `a` may precede `b` iff `b`'s key is at
most `a`'s. -/
def batchLe (a b : Obj) : Prop :=
  createdKey b ≤ createdKey a

instance : DecidableRel batchLe := by
  unfold batchLe
  infer_instance

instance : IsTotal Obj batchLe :=
  ⟨fun a b => le_total (createdKey b) (createdKey a)⟩

instance : IsTrans Obj batchLe :=
  ⟨fun _ _ _ hab hbc => le_trans hbc hab⟩

/-- Does the `where id != $1` clause keep row `r`?  SQL equality against
the anonymous uuid: `NULL` (or a non-string id) compares unknown and the
row is dropped. -/
def keepRow (r : Obj) (anonId : String) : Bool :=
  match lookupKey r "id" with
  | some (Val.str s) => s != anonId
  | _ => false

/-- `_.map(format)` under a promise: the first `TypeError` rejects the
whole batch. -/
def mapFormat : List Obj → Except Err (List Obj)
  | [] => Except.ok []
  | r :: rest =>
      match format r with
      | some c =>
          match mapFormat rest with
          | Except.ok cs => Except.ok (c :: cs)
          | Except.error e => Except.error e
      | none => Except.error Err.typeError

/-- `batch()` (`lib/customers.js:186`): the `NUM_RESULTS` most recent
customers other than the anonymous placeholder, ordered by `created`
descending, each passed through `format`. -/
def batch (anonId : String) (store : List Obj) : Except Err (List Obj) :=
  mapFormat
    (((store.filter (fun r => keepRow r anonId)).insertionSort batchLe).take
      NUM_RESULTS)

theorem truthyAt_congr {o o2 : Obj} {k : String}
    (h : lookupKey o k = lookupKey o2 k) : truthyAt o k = truthyAt o2 k := by
  unfold truthyAt
  rw [h]

/-- The `overrideFields.forEach` loop of `addOverrideUser`, generalised
over the field list. -/
def addByFold (tok : String) (names : List String) (c : Obj) : Obj :=
  names.foldl
    (fun c field =>
      if truthyAt c field then setKey c (field ++ "_by") (Val.str tok)
      else c)
    c

theorem addOverrideUser_some (c : Obj) (tok : String) :
    addOverrideUser c (some tok) = addByFold tok overrideFieldNames c := rfl

theorem lookup_addByFold_other (tok : String) (names : List String)
    (target : String) (h : ∀ n ∈ names, target ≠ n ++ "_by") :
    ∀ c : Obj, lookupKey (addByFold tok names c) target = lookupKey c target := by
  induction names with
  | nil => intro c; rfl
  | cons n ns ih =>
      intro c
      have hfold : addByFold tok (n :: ns) c
          = addByFold tok ns
              (if truthyAt c n then setKey c (n ++ "_by") (Val.str tok) else c) := rfl
      rw [hfold, ih (fun m hm => h m (List.mem_cons_of_mem n hm))]
      by_cases ht : truthyAt c n
      · simp [ht, lookup_setKey_ne _ _ _ _ (h n (List.mem_cons_self _ _))]
      · simp [ht]

theorem lookup_addByFold_by (tok : String) (names : List String)
    (hp : names.Pairwise (fun a b => a ++ "_by" ≠ b ++ "_by"))
    (hnb : ∀ a ∈ names, ∀ b ∈ names, a ≠ b ++ "_by") :
    ∀ c : Obj, ∀ name ∈ names,
      (truthyAt c name = true →
        lookupKey (addByFold tok names c) (name ++ "_by") = some (Val.str tok))
      ∧ (truthyAt c name = false →
        lookupKey (addByFold tok names c) (name ++ "_by")
          = lookupKey c (name ++ "_by")) := by
  induction names with
  | nil =>
      intro c name hmem
      simp at hmem
  | cons n ns ih =>
      intro c name hname
      rcases List.pairwise_cons.mp hp with ⟨hpn, hpns⟩
      have hfold : addByFold tok (n :: ns) c
          = addByFold tok ns
              (if truthyAt c n then setKey c (n ++ "_by") (Val.str tok) else c) := rfl
      rcases List.mem_cons.mp hname with rfl | hmem
      · constructor
        · intro ht
          rw [hfold, lookup_addByFold_other tok ns _ (fun m hm => hpn m hm)]
          simp [ht, lookup_setKey_self]
        · intro ht
          rw [hfold, lookup_addByFold_other tok ns _ (fun m hm => hpn m hm)]
          simp [ht]
      · have hnb2 : ∀ a ∈ ns, ∀ b ∈ ns, a ≠ b ++ "_by" :=
          fun a ha b hb =>
            hnb a (List.mem_cons_of_mem n ha) b (List.mem_cons_of_mem n hb)
        have h1 :
            lookupKey
              (if truthyAt c n then setKey c (n ++ "_by") (Val.str tok) else c)
              name = lookupKey c name := by
          by_cases ht : truthyAt c n
          · simp [ht,
              lookup_setKey_ne _ _ _ _
                (hnb name hname n (List.mem_cons_self _ _))]
          · simp [ht]
        have htr :
            truthyAt
              (if truthyAt c n then setKey c (n ++ "_by") (Val.str tok) else c)
              name = truthyAt c name := truthyAt_congr h1
        have h2 :
            lookupKey
              (if truthyAt c n then setKey c (n ++ "_by") (Val.str tok) else c)
              (name ++ "_by") = lookupKey c (name ++ "_by") := by
          by_cases ht : truthyAt c n
          · simp [ht,
              lookup_setKey_ne _ _ _ _ (fun heq => hpn name hmem heq.symm)]
          · simp [ht]
        have hrec :=
          ih hpns hnb2
            (if truthyAt c n then setKey c (n ++ "_by") (Val.str tok) else c)
            name hmem
        constructor
        · intro ht
          rw [hfold]
          exact hrec.1 (by rw [htr]; exact ht)
        · intro ht
          rw [hfold, hrec.2 (by rw [htr]; exact ht), h2]

/-- `addOverrideUser` never changes a property other than the six
`<field>_by` companions; in particular the override fields themselves
keep their payload values. -/
theorem lookup_addOverrideUser_other (c : Obj) (tok : Option String)
    (target : String) (h : ∀ n ∈ overrideFieldNames, target ≠ n ++ "_by") :
    lookupKey (addOverrideUser c tok) target = lookupKey c target := by
  cases tok with
  | none => rfl
  | some u => rw [addOverrideUser_some]; exact lookup_addByFold_other u _ _ h c

theorem overrideFieldNames_pairwise :
    overrideFieldNames.Pairwise (fun a b => a ++ "_by" ≠ b ++ "_by") := by
  decide

theorem overrideFieldNames_no_by :
    ∀ a ∈ overrideFieldNames, ∀ b ∈ overrideFieldNames, a ≠ b ++ "_by" := by
  decide

theorem overrideRecord_type (id : String) (c : Obj) (tok : Option String)
    (m : String × String) (r : ComplianceOverride)
    (h : overrideRecord id c tok m = some r) : r.complianceType = m.2 := by
  unfold overrideRecord at h
  cases hl : lookupKey c m.1 with
  | none => rw [hl] at h; exact absurd h (by simp)
  | some v =>
      rw [hl] at h
      by_cases ht : truthy v
      · simp [ht] at h
        rw [← h]
      · simp [ht] at h

theorem filter_type_filterMap (id : String) (c : Obj) (tok : Option String)
    (ms : List (String × String)) (ctype : String) :
    (ms.filterMap (overrideRecord id c tok)).filter
        (fun r => decide (r.complianceType = ctype))
      = (ms.filter (fun m => decide (m.2 = ctype))).filterMap
          (overrideRecord id c tok) := by
  induction ms with
  | nil => rfl
  | cons m ms ih =>
      cases hr : overrideRecord id c tok m with
      | none =>
          by_cases hm : m.2 = ctype <;>
            simp [List.filterMap_cons, hr, List.filter_cons, hm, ih]
      | some r =>
          have hty := overrideRecord_type id c tok m r hr
          by_cases hm : m.2 = ctype
          · have hrc : r.complianceType = ctype := hty.trans hm
            simp [List.filterMap_cons, hr, List.filter_cons, hm, hrc, ih]
          · have hrc : ¬ r.complianceType = ctype := by rw [hty]; exact hm
            simp [List.filterMap_cons, hr, List.filter_cons, hm, hrc, ih]

/-- Combine two `maxBy` partial results: keep the left (earlier)
incumbent unless the right value is strictly greater. -/
def mergeMax :
    Option (String × Int) → Option (String × Int) → Option (String × Int)
  | none, b => b
  | some a, none => some a
  | some a, some b => if a.2 < b.2 then some b else some a

theorem mergeMax_assoc (a b c : Option (String × Int)) :
    mergeMax (mergeMax a b) c = mergeMax a (mergeMax b c) := by
  rcases a with _ | ⟨la, va⟩
  · rfl
  · rcases b with _ | ⟨lb, vb⟩
    · rfl
    · rcases c with _ | ⟨lc, vc⟩
      · by_cases h1 : va < vb <;> simp [mergeMax, h1]
      · by_cases h1 : va < vb <;> by_cases h2 : vb < vc <;>
          by_cases h3 : va < vc <;> simp [mergeMax, h1, h2, h3] <;> omega

theorem maxByStep_eq_mergeMax (acc : Option (String × Int))
    (item : String × Option Int) :
    maxByStep acc item = mergeMax acc (maxByStep none item) := by
  rcases item with ⟨li, _ | w⟩ <;> rcases acc with _ | ⟨la, va⟩ <;>
    simp [maxByStep, mergeMax]

theorem foldl_maxByStep (items : List (String × Option Int)) :
    ∀ acc, items.foldl maxByStep acc = mergeMax acc (maxByValue items) := by
  induction items with
  | nil =>
      intro acc
      rcases acc with _ | a <;> simp [maxByValue, mergeMax]
  | cons x xs ih =>
      intro acc
      have hl : (x :: xs).foldl maxByStep acc = xs.foldl maxByStep (maxByStep acc x) := rfl
      have hr : maxByValue (x :: xs) = xs.foldl maxByStep (maxByStep none x) := rfl
      rw [hl, hr, ih (maxByStep acc x), ih (maxByStep none x),
        maxByStep_eq_mergeMax acc x, mergeMax_assoc]

theorem maxByValue_nil : maxByValue [] = none := rfl

theorem maxByValue_cons (x : String × Option Int)
    (xs : List (String × Option Int)) :
    maxByValue (x :: xs) = mergeMax (maxByStep none x) (maxByValue xs) := by
  have hr : maxByValue (x :: xs) = xs.foldl maxByStep (maxByStep none x) := rfl
  rw [hr, foldl_maxByStep]

theorem maxByValue_eq_none_iff (items : List (String × Option Int)) :
    maxByValue items = none ↔ ∀ p ∈ items, p.2 = none := by
  induction items with
  | nil => simp [maxByValue]
  | cons x xs ih =>
      rw [maxByValue_cons]
      constructor
      · intro h
        rcases hx : maxByStep none x with _ | a
        · rw [hx] at h
          have hxs := ih.mp h
          intro p hp
          rcases List.mem_cons.mp hp with rfl | hp2
          · rcases p with ⟨l, _ | w⟩
            · rfl
            · simp [maxByStep] at hx
          · exact hxs p hp2
        · rw [hx] at h
          rcases hM : maxByValue xs with _ | b <;> rw [hM] at h <;>
            simp [mergeMax] at h
          split at h <;> simp at h
      · intro h
        have hx : maxByStep none x = none := by
          have := h x (List.mem_cons_self _ _)
          rcases x with ⟨l, ox⟩
          simp at this
          simp [maxByStep, this]
        have hxs : maxByValue xs = none :=
          ih.mpr (fun p hp => h p (List.mem_cons_of_mem x hp))
        rw [hx, hxs]
        rfl

theorem maxByValue_spec (items : List (String × Option Int)) (l : String)
    (v : Int) (h : maxByValue items = some (l, v)) :
    ∃ pre post, items = pre ++ (l, some v) :: post
      ∧ (∀ p ∈ pre, ∀ w, p.2 = some w → w < v)
      ∧ (∀ p ∈ items, ∀ w, p.2 = some w → w ≤ v) := by
  induction items generalizing l v with
  | nil => simp [maxByValue] at h
  | cons x xs ih =>
      rw [maxByValue_cons] at h
      rcases x with ⟨lx, _ | w⟩
      · have hx : maxByStep none (lx, (none : Option Int)) = none := rfl
        rw [hx] at h
        have h2 : maxByValue xs = some (l, v) := by
          rcases hM : maxByValue xs with _ | b <;> rw [hM] at h <;>
            simp [mergeMax] at h
          rw [h]
        obtain ⟨pre, post, hsplit, hpre, hglobal⟩ := ih l v h2
        refine ⟨(lx, none) :: pre, post, by rw [hsplit]; rfl, ?_, ?_⟩
        · intro p hp w hw
          rcases List.mem_cons.mp hp with rfl | hp2
          · simp at hw
          · exact hpre p hp2 w hw
        · intro p hp w hw
          rcases List.mem_cons.mp hp with rfl | hp2
          · simp at hw
          · exact hglobal p hp2 w hw
      · have hx : maxByStep none (lx, some w) = some (lx, w) := rfl
        rw [hx] at h
        rcases hM : maxByValue xs with _ | ⟨l2, v2⟩
        · rw [hM] at h
          simp [mergeMax] at h
          obtain ⟨rfl, rfl⟩ := h
          have hall := (maxByValue_eq_none_iff xs).mp hM
          refine ⟨[], xs, rfl, by simp, ?_⟩
          intro p hp u hu
          rcases List.mem_cons.mp hp with rfl | hp2
          · simp at hu
            omega
          · rw [hall p hp2] at hu
            exact absurd hu (by simp)
        · rw [hM] at h
          simp only [mergeMax] at h
          obtain ⟨pre, post, hsplit, hpre, hglobal⟩ := ih l2 v2 hM
          by_cases hlt : w < v2
          · rw [if_pos hlt] at h
            obtain ⟨rfl, rfl⟩ := Prod.mk.inj (Option.some.inj h)
            refine ⟨(lx, some w) :: pre, post, by rw [hsplit]; rfl, ?_, ?_⟩
            · intro p hp u hu
              rcases List.mem_cons.mp hp with rfl | hp2
              · simp at hu
                omega
              · exact hpre p hp2 u hu
            · intro p hp u hu
              rcases List.mem_cons.mp hp with rfl | hp2
              · simp at hu
                omega
              · exact hglobal p hp2 u hu
          · rw [if_neg hlt] at h
            obtain ⟨rfl, rfl⟩ := Prod.mk.inj (Option.some.inj h)
            refine ⟨[], xs, rfl, by simp, ?_⟩
            intro p hp u hu
            rcases List.mem_cons.mp hp with rfl | hp2
            · simp at hu
              omega
            · have := hglobal p hp2 u hu
              omega

/-- Is `p` a milestone whose timestamp is non-null and at least every
timestamp in `items`?  (The spec's "milestone with the maximum
timestamp", nulls sorting below every real timestamp.) -/
def isMaxAt (items : List (String × Option Int)) (p : String × Option Int) :
    Bool :=
  match p.2 with
  | none => false
  | some v =>
      items.all (fun q =>
        match q.2 with
        | none => true
        | some w => decide (w ≤ v))

/-- Modelled from the spec (§4.5 Status Deriver): the label of the
milestone with the maximum timestamp value, where null timestamps sort
below any real timestamp, and ties go to the first milestone in the
fixed ordering — i.e. the first list entry whose timestamp is non-null
and at least every other. -/
def specStatus (items : List (String × Option Int)) : Option String :=
  (items.find? (isMaxAt items)).map Prod.fst

theorem maxByValue_fst_eq_specStatus (items : List (String × Option Int)) :
    (maxByValue items).map Prod.fst = specStatus items := by
  cases hM : maxByValue items with
  | none =>
      have hall := (maxByValue_eq_none_iff items).mp hM
      have hfind : items.find? (isMaxAt items) = none := by
        rw [List.find?_eq_none]
        intro p hp
        rw [isMaxAt, hall p hp]
        simp
      simp [specStatus, hfind]
  | some lv =>
      rcases lv with ⟨l, v⟩
      obtain ⟨pre, post, hsplit, hpre, hglobal⟩ :=
        maxByValue_spec items l v hM
      have hP : isMaxAt items (l, some v) = true := by
        rw [isMaxAt]
        rw [List.all_eq_true]
        intro q hq
        rcases hq2 : q.2 with _ | w
        · simp
        · simp [hglobal q hq w hq2]
      have hprefail : ∀ p ∈ pre, ¬ isMaxAt items p = true := by
        intro p hp hPp
        rcases hp2 : p.2 with _ | w
        · rw [isMaxAt, hp2] at hPp
          simp at hPp
        · rw [isMaxAt, hp2, List.all_eq_true] at hPp
          have hmem : ((l, some v) : String × Option Int) ∈ items := by
            rw [hsplit]
            exact List.mem_append_right _ (List.mem_cons_self _ _)
          have := hPp (l, some v) hmem
          simp at this
          have hlt := hpre p hp w hp2
          omega
      have hfind : items.find? (isMaxAt items) = some (l, some v) := by
        have hsplit2 :
            List.find? (isMaxAt items) items
              = List.find? (isMaxAt items) (pre ++ (l, some v) :: post) :=
          congrArg (List.find? (isMaxAt items)) hsplit
        rw [hsplit2, List.find?_append]
        have h1 : pre.find? (isMaxAt items) = none := by
          rw [List.find?_eq_none]
          exact hprefail
        rw [h1]
        simp [List.find?_cons_of_pos _ hP]
      simp [specStatus, hfind]

theorem lookup_camelize (o : Obj) (tgt : String)
    (htgt : camelizeKey tgt = tgt)
    (hclean : ∀ kv ∈ o, camelizeKey kv.1 = tgt → kv.1 = tgt) :
    lookupKey (camelizeObj o) tgt = lookupKey o tgt := by
  induction o with
  | nil => rfl
  | cons kv rest ih =>
      by_cases h : kv.1 = tgt
      · simp [camelizeObj, lookupKey, h, htgt]
      · have h2 : ¬ camelizeKey kv.1 = tgt :=
          fun hc => h (hclean kv (List.mem_cons_self _ _) hc)
        have ih2 := ih (fun kv2 hkv2 => hclean kv2 (List.mem_cons_of_mem kv hkv2))
        simpa [camelizeObj, lookupKey, h, h2] using ih2

theorem mapFormat_ok_forall2 (rows : List Obj) :
    ∀ out, mapFormat rows = Except.ok out →
      List.Forall₂ (fun r c => format r = some c) rows out := by
  induction rows with
  | nil =>
      intro out h
      unfold mapFormat at h
      injection h with h2
      rw [← h2]
      exact List.Forall₂.nil
  | cons r rest ih =>
      intro out h
      unfold mapFormat at h
      cases hf : format r with
      | none =>
          rw [hf] at h
          exact absurd h (by simp)
      | some c =>
          rw [hf] at h
          cases hm : mapFormat rest with
          | error e =>
              rw [hm] at h
              exact absurd h (by simp)
          | ok cs =>
              rw [hm] at h
              injection h with h2
              rw [← h2]
              exact List.Forall₂.cons hf (ih cs hm)

theorem mapFormat_error_of_mem (rows : List Obj) (r : Obj) (hr : r ∈ rows)
    (hf : format r = none) : mapFormat rows = Except.error Err.typeError := by
  induction rows with
  | nil => simp at hr
  | cons x xs ih =>
      unfold mapFormat
      cases hx : format x with
      | none => rfl
      | some c =>
          rcases List.mem_cons.mp hr with rfl | hr2
          · rw [hx] at hf
            exact absurd hf (by simp)
          · rw [ih hr2]

/-- Modelled from the spec (claim wording, §4.4): the exact sum of the
fiat amounts of the customer's cash-in and cash-out transactions created
strictly within the trailing 24 hours. -/
def dailyVolumeSpec (cashIn cashOut : List Tx) (now : Int) (cid : Val) : Rat :=
  (((cashIn ++ cashOut).filter
      (fun t => t.customerId = cid ∧ now - oneDay < t.created)).map
    Tx.fiat).sum

theorem foldl_add_eq_sum (l : List Rat) : ∀ a : Rat,
    l.foldl (fun x y => x + y) a = a + l.sum := by
  induction l with
  | nil =>
      intro a
      simp
  | cons x xs ih =>
      intro a
      rw [List.foldl_cons, ih (a + x), List.sum_cons]
      ring

/-- C6: `getDailyVolume` returns exactly the sum of the cash-in and
cash-out fiat totals over the customer's transactions created strictly
within the trailing 24 hours, in exact rational arithmetic; stale
transactions are excluded by the filter, and a customer with no
transactions gets `0`, not an error. -/
theorem getDailyVolume_daily_sum (cashIn cashOut : List Tx) (now : Int)
    (cid : Val) :
    getDailyVolume cashIn cashOut now cid
        = dailyVolumeSpec cashIn cashOut now cid
      ∧ getDailyVolume [] [] now cid = 0 := by
  constructor
  · unfold getDailyVolume sumFiatSince dailyVolumeSpec
    rw [List.filter_append, List.map_append, List.sum_append,
      foldl_add_eq_sum, foldl_add_eq_sum]
    ring
  · simp [getDailyVolume, sumFiatSince]

/-- C7: the primary result of `update` — the store row written and the
value resolved to the caller — and even the list of audit records
attempted are identical whatever the fire-and-forget audit write does;
only the recorded `auditResult` can differ.  The audit write is fired
before the row update without being awaited and its failure never
propagates. -/
theorem update_audit_fire_and_forget (store : List Obj) (id : String)
    (data : Obj) (userToken : Option String)
    (w1 w2 : List ComplianceOverride → Except Err Unit) :
    (update store id data userToken w1).newStore
        = (update store id data userToken w2).newStore
      ∧ (update store id data userToken w1).result
        = (update store id data userToken w2).result
      ∧ (update store id data userToken w1).auditAttempt
        = (update store id data userToken w2).auditAttempt :=
  ⟨rfl, rfl, rfl⟩

/-- C3 counterexample: `update` on an id with no matching customer row
resolves with the `db.one` no-data rejection — an error, not the absent
value the claim describes (the `customer ? format(customer) : null`
branch of the source is unreachable because `db.one` never resolves with
zero rows). -/
theorem update_missing_id_cex :
    (update [] "c1" [("phone_at", Val.num 1)] none
        (fun _ => Except.ok ())).result = Except.error Err.noData
      ∧ (update [] "c1" [("phone_at", Val.num 1)] none
          (fun _ => Except.ok ())).result ≠ Except.ok none := by
  constructor
  · decide
  · decide

/-- C3 (amended): for an id with no matching customer row (and a payload
that still has columns after normalisation), `update` rejects with the
no-data store error instead of resolving with an absent value. -/
theorem update_missing_id_error (store : List Obj) (id : String) (data : Obj)
    (userToken : Option String)
    (w : List ComplianceOverride → Except Err Unit)
    (hmiss : store.filter (fun r => decide (idMatches r id)) = [])
    (hcols :
      (addOverrideUser (normalizePayload data) userToken).isEmpty = false) :
    (update store id data userToken w).result = Except.error Err.noData := by
  have hres : (update store id data userToken w).result
      = (runUpdateSql store id
          (addOverrideUser (normalizePayload data) userToken)).2 := rfl
  rw [hres]
  unfold runUpdateSql
  rw [hmiss]
  simp [hcols]

theorem update_missing_id_error_witness :
    ([] : List Obj).filter (fun r => decide (idMatches r "c1")) = []
      ∧ (addOverrideUser (normalizePayload [("phone_at", Val.num 1)])
          none).isEmpty = false
      ∧ (update [] "c1" [("phone_at", Val.num 1)] none
          (fun _ => Except.ok ())).result = Except.error Err.noData :=
  ⟨rfl, by decide,
    update_missing_id_error [] "c1" [("phone_at", Val.num 1)] none _
      rfl (by decide)⟩

theorem audit_filter_single (payload : Obj) (id : String)
    (tok : Option String) (name ctype : String)
    (hfilter : overrideFieldMappings.filter (fun m => decide (m.2 = ctype))
      = [(name, ctype)])
    (hpres : lookupKey (addOverrideUser payload tok) name
      = lookupKey payload name) :
    (∀ v, lookupKey payload name = some v → truthy v = true →
        (addComplianceOverrides id (addOverrideUser payload tok) tok).filter
            (fun r => decide (r.complianceType = ctype))
          = [⟨id, ctype, tok, v⟩])
      ∧ (truthyAt payload name = false →
        (addComplianceOverrides id (addOverrideUser payload tok) tok).filter
            (fun r => decide (r.complianceType = ctype)) = []) := by
  unfold addComplianceOverrides
  rw [filter_type_filterMap, hfilter]
  constructor
  · intro v hv ht
    simp [List.filterMap_cons, List.filterMap_nil, overrideRecord, hpres,
      hv, ht]
  · intro ht
    unfold truthyAt at ht
    cases hl : lookupKey payload name with
    | none =>
        simp [List.filterMap_cons, List.filterMap_nil, overrideRecord,
          hpres, hl]
    | some v =>
        have ht2 : truthy v = false := by simpa [truthyAt, hl] using ht
        simp [List.filterMap_cons, List.filterMap_nil, overrideRecord,
          hpres, hl, ht2]

/-- C1: in every `update(id, data, userToken)` call — with or without an
acting user — each of the six override fields that is present and truthy
in the normalised payload yields exactly one audit record
`⟨id, mapped type, userToken, field value⟩` among the records handed to
the override tracker store, and a field that is absent or falsy yields
none. -/
theorem update_compliance_audit (store : List Obj) (id : String) (data : Obj)
    (userToken : Option String)
    (w : List ComplianceOverride → Except Err Unit) (name ctype : String)
    (hm : (name, ctype) ∈ overrideFieldMappings) :
    (∀ v, lookupKey (normalizePayload data) name = some v →
        truthy v = true →
        ((update store id data userToken w).auditAttempt).filter
            (fun r => decide (r.complianceType = ctype))
          = [⟨id, ctype, userToken, v⟩])
      ∧ (truthyAt (normalizePayload data) name = false →
        ((update store id data userToken w).auditAttempt).filter
            (fun r => decide (r.complianceType = ctype)) = []) := by
  have haud : (update store id data userToken w).auditAttempt
      = addComplianceOverrides id
          (addOverrideUser (normalizePayload data) userToken) userToken := rfl
  rw [haud]
  simp only [overrideFieldMappings, List.mem_cons, List.not_mem_nil,
    or_false] at hm
  rcases hm with hm | hm | hm | hm | hm | hm <;>
    obtain ⟨rfl, rfl⟩ := Prod.mk.inj hm <;>
    exact audit_filter_single _ _ _ _ _ (by decide)
      (lookup_addOverrideUser_other _ _ _ (by decide))

theorem update_compliance_audit_witness :
    (("front_facing_cam_override", "front_camera") ∈ overrideFieldMappings)
      ∧ ((update [[("id", Val.str "c1"), ("phone_at", Val.num 1)]] "c1"
            [("frontFacingCamOverride", Val.str "ok")] (some "user-42")
            (fun _ => Except.ok ())).auditAttempt).filter
          (fun r => decide (r.complianceType = "front_camera"))
        = [⟨"c1", "front_camera", some "user-42", Val.str "ok"⟩]
      ∧ ((update [[("id", Val.str "c1"), ("phone_at", Val.num 1)]] "c1"
            [("idCardAt", Val.num 7)] (some "user-42")
            (fun _ => Except.ok ())).auditAttempt).filter
          (fun r => decide (r.complianceType = "sms")) = [] := by
  refine ⟨by decide, ?_, ?_⟩
  · exact (update_compliance_audit _ "c1" _ (some "user-42") _
      "front_facing_cam_override" "front_camera" (by decide)).1
      (Val.str "ok") (by decide) (by decide)
  · exact (update_compliance_audit _ "c1" _ (some "user-42") _
      "sms_override" "sms" (by decide)).2 (by decide)

/-- C4: inside `update`, attribution is added if and only if an acting
user is present: with no user the payload is returned unchanged (no
`_by` fields added); with a user, every one of the six override fields
that is present and truthy in the normalised payload gets its
`<field>_by` companion set to the user's token, while absent or falsy
fields leave their `_by` companion exactly as it was in the payload.
(`addOverrideUser (normalizePayload data) userToken` is the `updateData`
that `update` writes.) -/
theorem update_by_attribution (data : Obj) (name : String)
    (hname : name ∈ overrideFieldNames) :
    addOverrideUser (normalizePayload data) none = normalizePayload data
      ∧ ∀ u : String,
        (truthyAt (normalizePayload data) name = true →
          lookupKey (addOverrideUser (normalizePayload data) (some u))
              (name ++ "_by") = some (Val.str u))
        ∧ (truthyAt (normalizePayload data) name = false →
          lookupKey (addOverrideUser (normalizePayload data) (some u))
              (name ++ "_by")
            = lookupKey (normalizePayload data) (name ++ "_by")) := by
  refine ⟨rfl, fun u => ?_⟩
  rw [addOverrideUser_some]
  exact lookup_addByFold_by u overrideFieldNames overrideFieldNames_pairwise
    overrideFieldNames_no_by (normalizePayload data) name hname

theorem update_by_attribution_witness :
    ("front_facing_cam_override" ∈ overrideFieldNames)
      ∧ truthyAt (normalizePayload [("frontFacingCamOverride", Val.str "ok")])
          "front_facing_cam_override" = true
      ∧ lookupKey
          (addOverrideUser
            (normalizePayload [("frontFacingCamOverride", Val.str "ok")])
            (some "user-42"))
          "front_facing_cam_override_by" = some (Val.str "user-42")
      ∧ addOverrideUser (normalizePayload [("idCardAt", Val.num 7)]) none
          = normalizePayload [("idCardAt", Val.num 7)] := by
  refine ⟨by decide, by decide, ?_, ?_⟩
  · exact (update_by_attribution [("frontFacingCamOverride", Val.str "ok")]
      "front_facing_cam_override" (by decide)).2 "user-42" |>.1 (by decide)
  · exact (update_by_attribution [("idCardAt", Val.num 7)]
      "front_facing_cam_override" (by decide)).1

/-- C2: for every customer row with at least one non-null milestone
timestamp (and no column other than `status` camelizing to `status`,
which holds for the customers table), `format` succeeds and the `status`
it attaches is exactly the spec's selection: the label of the milestone
with the maximum timestamp, nulls sorting below every real timestamp,
ties going to the first milestone in the fixed ordering
{Phone, ID card, Front facing camera, ID card image}. -/
theorem format_status_max (row : Obj)
    (hsome : (milestones row).any (fun p => p.2.isSome) = true)
    (hclean : ∀ kv ∈ row, camelizeKey kv.1 = "status" → kv.1 = "status") :
    ∃ c, format row = some c
      ∧ lookupKey c "status" = (specStatus (milestones row)).map Val.str := by
  cases hM : maxByValue (milestones row) with
  | none =>
      exfalso
      have hall := (maxByValue_eq_none_iff (milestones row)).mp hM
      obtain ⟨p, hp, hps⟩ := List.any_eq_true.mp hsome
      rw [hall p hp] at hps
      simp at hps
  | some lv =>
      rcases lv with ⟨l, v⟩
      refine ⟨camelizeObj (setKey row "status" (Val.str l)),
        by simp [format, hM], ?_⟩
      have hclean2 : ∀ kv ∈ setKey row "status" (Val.str l),
          camelizeKey kv.1 = "status" → kv.1 = "status" := by
        intro kv hkv hc
        rcases mem_setKey row "status" (Val.str l) kv hkv with hmem | hk
        · exact hclean kv hmem hc
        · exact hk
      rw [lookup_camelize _ _ (by decide) hclean2, lookup_setKey_self,
        ← maxByValue_fst_eq_specStatus, hM]
      rfl

theorem format_status_max_witness :
    specStatus
        (milestones [("phone_at", Val.num 5), ("id_card_at", Val.num 5)])
      = some "Phone"
      ∧ ∃ c, format [("phone_at", Val.num 5), ("id_card_at", Val.num 5)]
            = some c
          ∧ lookupKey c "status"
            = (specStatus
                (milestones
                  [("phone_at", Val.num 5), ("id_card_at", Val.num 5)])).map
                Val.str := by
  refine ⟨by decide, ?_⟩
  exact format_status_max [("phone_at", Val.num 5), ("id_card_at", Val.num 5)]
    (by decide) (by decide)

/-- C5 counterexample: on a customer whose stored `id_card_photo_at` is
strictly the latest milestone timestamp (phone at 1, id-card and
front-facing-camera null, id-card-photo at 5), `format` still derives
status `"Phone"`, not `"ID card image"` — the "ID card image" milestone
never reads `id_card_photo_at`. -/
theorem format_id_card_photo_cex :
    tsAt [("id", Val.str "c1"), ("phone_at", Val.num 1),
        ("id_card_photo_at", Val.num 5)] "id_card_photo_at" = some 5
      ∧ tsAt [("id", Val.str "c1"), ("phone_at", Val.num 1),
          ("id_card_photo_at", Val.num 5)] "phone_at" = some 1
      ∧ tsAt [("id", Val.str "c1"), ("phone_at", Val.num 1),
          ("id_card_photo_at", Val.num 5)] "id_card_at" = none
      ∧ tsAt [("id", Val.str "c1"), ("phone_at", Val.num 1),
          ("id_card_photo_at", Val.num 5)] "front_facing_cam_at" = none
      ∧ (format [("id", Val.str "c1"), ("phone_at", Val.num 1),
            ("id_card_photo_at", Val.num 5)]).bind
          (fun c => lookupKey c "status") = some (Val.str "Phone")
      ∧ (format [("id", Val.str "c1"), ("phone_at", Val.num 1),
            ("id_card_photo_at", Val.num 5)]).bind
          (fun c => lookupKey c "status") ≠ some (Val.str "ID card image") := by
  refine ⟨rfl, rfl, rfl, rfl, by decide, by decide⟩

/-- C5 (amended): the "ID card image" milestone of the derived status is
computed from the stored `id_card_image_at` column, not from
`id_card_photo_at`: whenever `id_card_image_at` holds the strictly
latest timestamp among the four milestone columns `format` reads
(`phone_at`, `id_card_at`, `front_facing_cam_at`, `id_card_image_at`),
the derived status is `"ID card image"`. -/
theorem format_id_card_image_latest (row : Obj) (t : Int)
    (himg : tsAt row "id_card_image_at" = some t)
    (hphone : ∀ w, tsAt row "phone_at" = some w → w < t)
    (hcard : ∀ w, tsAt row "id_card_at" = some w → w < t)
    (hcam : ∀ w, tsAt row "front_facing_cam_at" = some w → w < t)
    (hclean : ∀ kv ∈ row, camelizeKey kv.1 = "status" → kv.1 = "status") :
    ∃ c, format row = some c
      ∧ lookupKey c "status" = some (Val.str "ID card image") := by
  have hmax : maxByValue (milestones row) = some ("ID card image", t) := by
    rw [milestones, himg]
    rcases ho1 : tsAt row "phone_at" with _ | w1 <;>
      rcases ho2 : tsAt row "id_card_at" with _ | w2 <;>
        rcases ho3 : tsAt row "front_facing_cam_at" with _ | w3
    · simp [maxByValue_cons, maxByStep, mergeMax, maxByValue_nil]
    · have hw3 := hcam w3 ho3
      simp [maxByValue_cons, maxByStep, mergeMax, maxByValue_nil, hw3]
    · have hw2 := hcard w2 ho2
      simp [maxByValue_cons, maxByStep, mergeMax, maxByValue_nil, hw2]
    · have hw2 := hcard w2 ho2
      have hw3 := hcam w3 ho3
      simp [maxByValue_cons, maxByStep, mergeMax, maxByValue_nil, hw2, hw3]
    · have hw1 := hphone w1 ho1
      simp [maxByValue_cons, maxByStep, mergeMax, maxByValue_nil, hw1]
    · have hw1 := hphone w1 ho1
      have hw3 := hcam w3 ho3
      simp [maxByValue_cons, maxByStep, mergeMax, maxByValue_nil, hw1, hw3]
    · have hw1 := hphone w1 ho1
      have hw2 := hcard w2 ho2
      simp [maxByValue_cons, maxByStep, mergeMax, maxByValue_nil, hw1, hw2]
    · have hw1 := hphone w1 ho1
      have hw2 := hcard w2 ho2
      have hw3 := hcam w3 ho3
      simp [maxByValue_cons, maxByStep, mergeMax, maxByValue_nil, hw1, hw2, hw3]
  refine ⟨camelizeObj (setKey row "status" (Val.str "ID card image")),
    by simp [format, hmax], ?_⟩
  have hclean2 : ∀ kv ∈ setKey row "status" (Val.str "ID card image"),
      camelizeKey kv.1 = "status" → kv.1 = "status" := by
    intro kv hkv hc
    rcases mem_setKey row "status" (Val.str "ID card image") kv hkv with
      hmem | hk
    · exact hclean kv hmem hc
    · exact hk
  rw [lookup_camelize _ _ (by decide) hclean2, lookup_setKey_self]

theorem format_id_card_image_latest_witness :
    tsAt [("id", Val.str "c1"), ("phone_at", Val.num 1),
        ("id_card_image_at", Val.num 7)] "id_card_image_at" = some 7
      ∧ ∃ c, format [("id", Val.str "c1"), ("phone_at", Val.num 1),
            ("id_card_image_at", Val.num 7)] = some c
          ∧ lookupKey c "status" = some (Val.str "ID card image") := by
  refine ⟨rfl, ?_⟩
  refine format_id_card_image_latest _ 7 rfl ?_ ?_ ?_ (by decide)
  · intro w hw
    simp [tsAt, lookupKey] at hw
    omega
  · intro w hw
    simp [tsAt, lookupKey] at hw
  · intro w hw
    simp [tsAt, lookupKey] at hw

/-- C8: `get(phone)` resolves with an absent value, not an error, when
no customer row carries the phone; on a hit it returns the projected
customer decorated with the computed `dailyVolume`, and the returned
record carries no `status` property (status is attached only by
`getById` and `batch`). -/
theorem get_by_phone_spec (store : List Obj) (cashIn cashOut : List Tx)
    (now : Int) (phone : String) :
    (store.filter (fun r => decide (phoneMatches r phone)) = [] →
      get store cashIn cashOut now phone = Except.ok none)
      ∧ (∀ row, store.filter (fun r => decide (phoneMatches r phone)) = [row] →
        ∃ c, get store cashIn cashOut now phone = Except.ok (some c)
          ∧ lookupKey c "dailyVolume"
              = some (Val.rat (getDailyVolume cashIn cashOut now
                  ((lookupKey row "id").getD Val.null)))
          ∧ lookupKey c "status" = none) := by
  constructor
  · intro h
    unfold get
    rw [h]
  · intro row h
    unfold get
    rw [h]
    refine ⟨_, rfl, ?_, ?_⟩
    · simp [selectIdPhone, setKey, lookupKey]
    · simp [selectIdPhone, setKey, lookupKey]

theorem get_by_phone_spec_witness :
    ([[("id", Val.str "c9"), ("phone", Val.str "555")]] : List Obj).filter
        (fun r => decide (phoneMatches r "555"))
      = [[("id", Val.str "c9"), ("phone", Val.str "555")]]
      ∧ (∃ c, get [[("id", Val.str "c9"), ("phone", Val.str "555")]]
            [⟨Val.str "c9", 90, 10⟩] [⟨Val.str "c9", 50, 3⟩] 100 "555"
            = Except.ok (some c)
          ∧ lookupKey c "dailyVolume"
              = some (Val.rat (getDailyVolume [⟨Val.str "c9", 90, 10⟩]
                  [⟨Val.str "c9", 50, 3⟩] 100
                  ((lookupKey [("id", Val.str "c9"),
                      ("phone", Val.str "555")] "id").getD Val.null)))
          ∧ lookupKey c "status" = none)
      ∧ get ([] : List Obj) [] [] 100 "777" = Except.ok none := by
  refine ⟨by decide, ?_, ?_⟩
  · exact (get_by_phone_spec [[("id", Val.str "c9"),
      ("phone", Val.str "555")]] [⟨Val.str "c9", 90, 10⟩]
      [⟨Val.str "c9", 50, 3⟩] 100 "555").2 _ (by decide)
  · exact (get_by_phone_spec [] [] [] 100 "777").1 rfl

/-- C9: whenever `batch` succeeds, it returned at most `NUM_RESULTS`
(20) customers, and they are exactly the `format`-images (status
decoration included) of a page of stored rows that excludes the
anonymous placeholder and is ordered by `created` descending. -/
theorem batch_page_spec (anonId : String) (store : List Obj)
    (out : List Obj) (h : batch anonId store = Except.ok out) :
    out.length ≤ NUM_RESULTS
      ∧ ∃ base : List Obj,
        base.Sorted batchLe
          ∧ (∀ r ∈ base, r ∈ store ∧ keepRow r anonId = true)
          ∧ List.Forall₂ (fun r c => format r = some c) base out := by
  have hf2 := mapFormat_ok_forall2
    (((store.filter (fun r => keepRow r anonId)).insertionSort
      batchLe).take NUM_RESULTS) out h
  constructor
  · rw [← hf2.length_eq, List.length_take]
    exact min_le_left _ _
  · refine ⟨_, ?_, ?_, hf2⟩
    · exact List.Pairwise.sublist (List.take_sublist _ _)
        (List.sorted_insertionSort batchLe _)
    · intro r hr
      have hr2 : r ∈ (store.filter
          (fun r => keepRow r anonId)).insertionSort batchLe :=
        (List.take_sublist _ _).mem hr
      have hr3 : r ∈ store.filter (fun r => keepRow r anonId) :=
        (List.mem_insertionSort batchLe).mp hr2
      exact ⟨(List.mem_filter.mp hr3).1, (List.mem_filter.mp hr3).2⟩

theorem batch_page_spec_witness :
    batch "anon"
        [[("id", Val.str "c1"), ("phone_at", Val.num 5),
            ("created", Val.num 10)],
          [("id", Val.str "anon"), ("phone_at", Val.num 1),
            ("created", Val.num 99)]]
      = Except.ok [[("id", Val.str "c1"), ("phoneAt", Val.num 5),
          ("created", Val.num 10), ("status", Val.str "Phone")]]
      ∧ ([[("id", Val.str "c1"), ("phoneAt", Val.num 5),
            ("created", Val.num 10),
            ("status", Val.str "Phone")]] : List Obj).length ≤ NUM_RESULTS
      ∧ ∃ base : List Obj,
        base.Sorted batchLe
          ∧ (∀ r ∈ base,
              r ∈ [[("id", Val.str "c1"), ("phone_at", Val.num 5),
                  ("created", Val.num 10)],
                [("id", Val.str "anon"), ("phone_at", Val.num 1),
                  ("created", Val.num 99)]]
                ∧ keepRow r "anon" = true)
          ∧ List.Forall₂ (fun r c => format r = some c) base
              [[("id", Val.str "c1"), ("phoneAt", Val.num 5),
                ("created", Val.num 10), ("status", Val.str "Phone")]] := by
  refine ⟨by decide, ?_⟩
  exact batch_page_spec "anon" _ _ (by decide)

/-- C10: a stored customer whose four milestone columns (`phone_at`,
`id_card_at`, `front_facing_cam_at`, `id_card_image_at`) are all null or
absent makes `format` throw (`_.maxBy` returns `undefined` and
`status.label` is a property read on `undefined`), so `getById`, a
`batch` that lists the row, and an `update` whose returned row is such a
customer all reject with the `TypeError` instead of producing a
status-decorated record. -/
theorem format_all_null_fails (row : Obj)
    (h1 : tsAt row "phone_at" = none)
    (h2 : tsAt row "id_card_at" = none)
    (h3 : tsAt row "front_facing_cam_at" = none)
    (h4 : tsAt row "id_card_image_at" = none) :
    format row = none
      ∧ (∀ store id, store.filter (fun r => decide (idMatches r id)) = [row] →
        getById store id = Except.error Err.typeError)
      ∧ (∀ anonId store,
        row ∈ (((store.filter (fun r => keepRow r anonId)).insertionSort
            batchLe).take NUM_RESULTS) →
        batch anonId store = Except.error Err.typeError)
      ∧ (∀ store id data userToken
          (w : List ComplianceOverride → Except Err Unit),
        (addOverrideUser (normalizePayload data) userToken).isEmpty = false →
        (store.filter (fun r => decide (idMatches r id))).map
            (fun r => applyUpdate r
              (addOverrideUser (normalizePayload data) userToken)) = [row] →
        (update store id data userToken w).result
          = Except.error Err.typeError) := by
  have hnone : maxByValue (milestones row) = none := by
    rw [(maxByValue_eq_none_iff (milestones row))]
    intro p hp
    simp [milestones, h1, h2, h3, h4] at hp
    rcases hp with hp | hp | hp | hp <;> rw [hp]
  have hfmt : format row = none := by simp [format, hnone]
  refine ⟨hfmt, ?_, ?_, ?_⟩
  · intro store id h
    unfold getById
    rw [h]
    simp [hfmt]
  · intro anonId store hmem
    unfold batch
    exact mapFormat_error_of_mem _ row hmem hfmt
  · intro store id data userToken w hcols h
    have hres : (update store id data userToken w).result
        = (runUpdateSql store id
            (addOverrideUser (normalizePayload data) userToken)).2 := rfl
    rw [hres]
    unfold runUpdateSql
    rw [h]
    simp [hcols, hfmt]

theorem format_all_null_fails_witness :
    tsAt [("id", Val.str "c1")] "phone_at" = none
      ∧ format [("id", Val.str "c1")] = none
      ∧ getById [[("id", Val.str "c1")]] "c1" = Except.error Err.typeError
      ∧ batch "anon" [[("id", Val.str "c1"), ("created", Val.num 3)]]
          = Except.error Err.typeError
      ∧ (update [[("id", Val.str "c1")]] "c1" [("name", Val.str "x")] none
          (fun _ => Except.ok ())).result = Except.error Err.typeError := by
  have hmain := format_all_null_fails [("id", Val.str "c1")]
    rfl rfl rfl rfl
  have hbatch := format_all_null_fails
    [("id", Val.str "c1"), ("created", Val.num 3)] rfl rfl rfl rfl
  have hupd := format_all_null_fails
    [("id", Val.str "c1"), ("name", Val.str "x")] rfl rfl rfl rfl
  refine ⟨rfl, hmain.1, hmain.2.1 _ "c1" (by decide), ?_, ?_⟩
  · exact hbatch.2.2.1 "anon" _ (by decide)
  · exact hupd.2.2.2 _ "c1" [("name", Val.str "x")] none _ (by decide)
      (by decide)

end Customers
